import Mathlib

/-!
Verification of the option analytics engine of the `getdata` repository
(`src/stock_analysis/options_math.py` and `src/stock_analysis/engine.py`).

The Python code computes with IEEE floats and calls the host `math` library
(`math.exp`, `math.log`, `math.erf`, `math.sqrt`).  We embed the numeric code
over an arbitrary linear ordered field `α`, idealizing float arithmetic as
exact field arithmetic, and we abstract the four host-library transcendental
functions into a record `MathLib α` (they are not part of the repository's
source).  Instantiating `α := ℝ` with the genuine exponential, logarithm,
square root and error function (`Mreal` below) gives the idealized
real-number semantics of the program; instantiating `α := ℚ` with simple
computable stand-ins gives an executable model used to evaluate the
branch structure on concrete inputs.

Decimal literals of the source (`1e-6`, `1e-9`, `0.5`, `5.0`) are written as
the exact rationals `1/1000000`, `1/1000000000`, `1/2`, `5`.
-/

open scoped BigOperators

/-- The four functions the pricing kernel takes from the host `math` library
(`math.exp`, `math.log`, `math.erf`, `math.sqrt`).  They are external
collaborators of the repository's source, hence parameters of the model. -/
structure MathLib (α : Type) where
  exp : α → α
  log : α → α
  erf : α → α
  sqrt : α → α

/-- `BsInputs` from `options_math.py`: spot `s`, strike `k`, time to expiry in
years `t`, risk-free rate `r` (Python default 0) and dividend yield `q`
(Python default 0). -/
structure BsInputs (α : Type) where
  s : α
  k : α
  t : α
  r : α
  q : α
deriving DecidableEq

variable {α : Type} [LinearOrderedField α]

/-- `_norm_cdf` from `options_math.py`:
`0.5 * (1.0 + math.erf(x / math.sqrt(2.0)))`. -/
def norm_cdf (M : MathLib α) (x : α) : α :=
  (1/2) * (1 + M.erf (x / M.sqrt 2))

/-- `bs_put_price` from `options_math.py`, lines 22-39. -/
def bs_put_price (M : MathLib α) (inp : BsInputs α) (sigma : α) : α :=
  if inp.t ≤ 0 then max (inp.k - inp.s) 0
  else if sigma ≤ 0 then
    let f := inp.s * M.exp ((inp.r - inp.q) * inp.t)
    M.exp (-inp.r * inp.t) * max (inp.k - f) 0
  else
    let vsqrt := sigma * M.sqrt inp.t
    let d1 := (M.log (inp.s / inp.k) + (inp.r - inp.q + (1/2) * sigma * sigma) * inp.t) / vsqrt
    let d2 := d1 - vsqrt
    let nd1 := norm_cdf M (-d1)
    let nd2 := norm_cdf M (-d2)
    let pv_k := inp.k * M.exp (-inp.r * inp.t)
    let pv_s := inp.s * M.exp (-inp.q * inp.t)
    pv_k * nd2 - pv_s * nd1

/-- `bs_put_delta` from `options_math.py`, lines 42-51. -/
def bs_put_delta (M : MathLib α) (inp : BsInputs α) (sigma : α) : α :=
  if inp.t ≤ 0 then (if inp.s < inp.k then -1 else 0)
  else if sigma ≤ 0 then
    let f := inp.s * M.exp ((inp.r - inp.q) * inp.t)
    if f < inp.k then -(M.exp (-inp.q * inp.t)) else 0
  else
    let vsqrt := sigma * M.sqrt inp.t
    let d1 := (M.log (inp.s / inp.k) + (inp.r - inp.q + (1/2) * sigma * sigma) * inp.t) / vsqrt;
    -(M.exp (-inp.q * inp.t)) * norm_cdf M (-d1)

/-- The `for _ in range(max_iter)` bisection loop of `implied_vol_put_bisect`
(`options_math.py`, lines 84-96), with the fuel argument counting the
remaining iterations.  The Python variable `fb` is dead (it is assigned and
never read) and is omitted.  At fuel 0 (budget exhausted) the final bracket
midpoint `0.5 * (a + b)` is returned, as in line 96. -/
def put_bisect_loop (M : MathLib α) (inp : BsInputs α) (target_price tol : α) :
    ℕ → α → α → α → α
  | 0, a, b, _ => (1/2) * (a + b)
  | n+1, a, b, fa =>
    let m := (1/2) * (a + b)
    let fm := bs_put_price M inp m - target_price
    if |fm| < tol ∨ b - a < 1/1000000 then m
    else if fa * fm ≤ 0 then put_bisect_loop M inp target_price tol n a m fa
    else put_bisect_loop M inp target_price tol n m b fm

/-- `implied_vol_put_bisect` from `options_math.py`, lines 54-96.  The Python
keyword defaults are `lo=1e-6`, `hi=5.0`, `max_iter=80`, `tol=1e-6`; callers
in the repository always use the defaults, and the claims are stated at those
values. -/
def implied_vol_put_bisect (M : MathLib α) (inp : BsInputs α) (target_price : α)
    (lo hi : α) (max_iter : ℕ) (tol : α) : Option α :=
  if target_price ≤ 0 ∨ inp.s ≤ 0 ∨ inp.k ≤ 0 ∨ inp.t ≤ 0 then none
  else
    let lower := max (inp.k * M.exp (-inp.r * inp.t) - inp.s * M.exp (-inp.q * inp.t)) 0
    let upper := inp.k * M.exp (-inp.r * inp.t)
    if ¬ (lower - 1/1000000000 ≤ target_price ∧ target_price ≤ upper + 1/1000000000) then none
    else
      let f_lo := bs_put_price M inp lo - target_price
      let f_hi := bs_put_price M inp hi - target_price
      if f_lo = 0 then some lo
      else if f_hi = 0 then some hi
      else if f_lo * f_hi > 0 then none
      else some (put_bisect_loop M inp target_price tol max_iter lo hi f_lo)

/-- Modelled from the spec: `bs_call_price`.  `engine.py` imports the
call-side kernel from `options_math`, but no definition is present under
`src/`; spec section 4.1 gives the formulas: the Black-Scholes call price
`S·e^(-qT)·N(d1) - K·e^(-rT)·N(d2)`, intrinsic value `max(S-K, 0)` at
`T ≤ 0`, and zero-volatility forward pricing `e^(-rT)·max(F-K, 0)` with
`F = S·e^((r-q)T)` at `σ ≤ 0`, mirroring the put code. -/
def bs_call_price (M : MathLib α) (inp : BsInputs α) (sigma : α) : α :=
  if inp.t ≤ 0 then max (inp.s - inp.k) 0
  else if sigma ≤ 0 then
    let f := inp.s * M.exp ((inp.r - inp.q) * inp.t)
    M.exp (-inp.r * inp.t) * max (f - inp.k) 0
  else
    let vsqrt := sigma * M.sqrt inp.t
    let d1 := (M.log (inp.s / inp.k) + (inp.r - inp.q + (1/2) * sigma * sigma) * inp.t) / vsqrt
    let d2 := d1 - vsqrt
    let pv_k := inp.k * M.exp (-inp.r * inp.t)
    let pv_s := inp.s * M.exp (-inp.q * inp.t)
    pv_s * norm_cdf M d1 - pv_k * norm_cdf M d2

/-- Modelled from the spec: `bs_call_delta`.  `engine.py` imports it from
`options_math`, but no definition is present under `src/`; spec sections 4.1
give `CallDelta = e^(-qT)·N(d1)`, the `T ≤ 0` limit `1 if spot>strike else 0`,
and the zero-volatility value `e^(-qT)` if `F>K` else `0`. -/
def bs_call_delta (M : MathLib α) (inp : BsInputs α) (sigma : α) : α :=
  if inp.t ≤ 0 then (if inp.k < inp.s then 1 else 0)
  else if sigma ≤ 0 then
    let f := inp.s * M.exp ((inp.r - inp.q) * inp.t)
    if inp.k < f then M.exp (-inp.q * inp.t) else 0
  else
    let vsqrt := sigma * M.sqrt inp.t
    let d1 := (M.log (inp.s / inp.k) + (inp.r - inp.q + (1/2) * sigma * sigma) * inp.t) / vsqrt
    M.exp (-inp.q * inp.t) * norm_cdf M d1

/-- Modelled from the spec: the bisection loop of `implied_vol_call_bisect`,
the mirror image of the put loop using `bs_call_price`. -/
def call_bisect_loop (M : MathLib α) (inp : BsInputs α) (target_price tol : α) :
    ℕ → α → α → α → α
  | 0, a, b, _ => (1/2) * (a + b)
  | n+1, a, b, fa =>
    let m := (1/2) * (a + b)
    let fm := bs_call_price M inp m - target_price
    if |fm| < tol ∨ b - a < 1/1000000 then m
    else if fa * fm ≤ 0 then call_bisect_loop M inp target_price tol n a m fa
    else call_bisect_loop M inp target_price tol n m b fm

/-- Modelled from the spec: `implied_vol_call_bisect`.  `engine.py` imports it
from `options_math`, but no definition is present under `src/`; spec section
4.2 describes it as the mirror image of the put solver with the call
no-arbitrage band `lower = max(S·e^(-qT) - K·e^(-rT), 0)`,
`upper = S·e^(-qT)`. -/
def implied_vol_call_bisect (M : MathLib α) (inp : BsInputs α) (target_price : α)
    (lo hi : α) (max_iter : ℕ) (tol : α) : Option α :=
  if target_price ≤ 0 ∨ inp.s ≤ 0 ∨ inp.k ≤ 0 ∨ inp.t ≤ 0 then none
  else
    let lower := max (inp.s * M.exp (-inp.q * inp.t) - inp.k * M.exp (-inp.r * inp.t)) 0
    let upper := inp.s * M.exp (-inp.q * inp.t)
    if ¬ (lower - 1/1000000000 ≤ target_price ∧ target_price ≤ upper + 1/1000000000) then none
    else
      let f_lo := bs_call_price M inp lo - target_price
      let f_hi := bs_call_price M inp hi - target_price
      if f_lo = 0 then some lo
      else if f_hi = 0 then some hi
      else if f_lo * f_hi > 0 then none
      else some (call_bisect_loop M inp target_price tol max_iter lo hi f_lo)

/-- The option right, after `engine.py`'s validation of the `right` string
(`right in {"put", "call"}`). -/
inductive OptRight
  | put
  | call
deriving DecidableEq

/-- One option-chain row as produced by `Nasdaq.get_put_chain`
(`sources/nasdaq.py`, lines 174-182): strike plus optional bid, ask, last and
the derived mid.  `engine.py` reads the `strike`, `mid`, `bid` and `ask`
keys. -/
structure ChainRow (α : Type) where
  strike : α
  bid : Option α
  ask : Option α
  last : Option α
  mid : Option α
deriving DecidableEq

/-- The candidate record built in the loop of
`OptionEngine.find_strike_for_delta` (`engine.py`, lines 92-106).  The string
and date fields echoed from the request (`ticker`, `asof`, `expiry`,
`source`) are surface metadata and are not modeled. -/
structure Candidate (α : Type) where
  spot : α
  right : OptRight
  target_delta : α
  strike : α
  delta : α
  iv : α
  premium_mid : α
  premium_bid : Option α
  premium_ask : Option α
deriving DecidableEq

/-- One iteration of the `for row in chain` loop body of
`find_strike_for_delta` (`engine.py`, lines 78-106), factored per row: `none`
when the row is skipped (no mid, `mid ≤ 0`, or the implied-volatility solve
returns the sentinel), otherwise the pair `(diff, cand)` pushed to the
running-best update.  The solver and delta calls use the Python keyword
defaults `lo=1e-6, hi=5.0, max_iter=80, tol=1e-6`. -/
def eval_row (M : MathLib α) (right : OptRight) (base : BsInputs α)
    (target_delta : α) (row : ChainRow α) : Option (α × Candidate α) :=
  match row.mid with
  | none => none
  | some mid =>
    if mid ≤ 0 then none
    else
      let inp : BsInputs α := ⟨base.s, row.strike, base.t, base.r, base.q⟩
      let iv? := match right with
        | .put => implied_vol_put_bisect M inp mid (1/1000000) 5 80 (1/1000000)
        | .call => implied_vol_call_bisect M inp mid (1/1000000) 5 80 (1/1000000)
      match iv? with
      | none => none
      | some iv =>
        let d := match right with
          | .put => bs_put_delta M inp iv
          | .call => bs_call_delta M inp iv
        let diff := |d - target_delta|
        some (diff, ⟨base.s, right, target_delta, row.strike, d, iv, mid, row.bid, row.ask⟩)

/-- The running-best fold of `find_strike_for_delta` (`engine.py`, lines
76-109): `best` starts as `None` and is replaced by `(diff, cand)` exactly
when `best is None or diff < best[0]`. -/
def find_best (M : MathLib α) (right : OptRight) (base : BsInputs α) (target_delta : α) :
    Option (α × Candidate α) → List (ChainRow α) → Option (α × Candidate α)
  | best, [] => best
  | best, row :: rest =>
    match eval_row M right base target_delta row with
    | none => find_best M right base target_delta best rest
    | some dc =>
      let best2 := match best with
        | none => some dc
        | some b => if dc.1 < b.1 then some dc else best
      find_best M right base target_delta best2 rest

/-- `OptionEngine.find_strike_for_delta` (`engine.py`, lines 48-114), with the
external fetches resolved: the spot `s` and the chain rows are taken as
arguments, and the date pair `(expiry, asof)` is represented by the day
difference `days = (expiry - asof).days`.  The `expiry <= asof` check becomes
`days ≤ 0`, `t_years = days / 365.0`, and `base = BsInputs(s, 1.0, t_years,
r, q)` as in lines 63-74.  Python exceptions are modeled by
`Except.error`. -/
def find_strike_for_delta (M : MathLib α) (right : OptRight) (chain : List (ChainRow α))
    (s : α) (days : ℤ) (r q target_delta : α) : Except String (Candidate α) :=
  if days ≤ 0 then .error "expiry must be after asof"
  else
    let t_years : α := (days : α) / 365
    let base : BsInputs α := ⟨s, 1, t_years, r, q⟩
    match find_best M right base target_delta none chain with
    | none => .error "Could not compute delta for any strike (missing mid prices or IV solve failed)"
    | some b => .ok b.2

/-- The rows of the chain with the per-row evaluation applied, in order:
the eligible `(diff, cand)` entries of the selector loop. -/
def eligible_entries (M : MathLib α) (right : OptRight) (base : BsInputs α)
    (target_delta : α) (chain : List (ChainRow α)) : List (α × Candidate α) :=
  chain.filterMap (eval_row M right base target_delta)

/-- The running-best update of the selector loop, expressed directly on the
stream of eligible `(diff, cand)` entries: `find_best` over a chain equals
`run_best` over `eligible_entries` of that chain (proved below). -/
def run_best : Option (α × Candidate α) → List (α × Candidate α) → Option (α × Candidate α)
  | best, [] => best
  | best, dc :: rest =>
    let best2 := match best with
      | none => some dc
      | some b => if dc.1 < b.1 then some dc else best
    run_best best2 rest

/-- A premium quote for one contract as fetched by the Nasdaq collaborator
(`NasdaqPutPremium`-shaped; `engine.py`'s explicit-strike covered-call path
reads `mid` and `bid`). -/
structure PremiumQuote (α : Type) where
  bid : Option α
  ask : Option α
  last : Option α
  mid : Option α
deriving DecidableEq

/-- The record returned by `OptionEngine.covered_call` (`engine.py`, lines
236-256).  `delta`, `iv`, `max_return_pct` and `annualized_max_return_pct`
are optional exactly as in the source (`None` propagates into the returned
dict); the string fields (`ticker`, `asof`, `expiry`, `right`, `source`) are
surface metadata and are not modeled. -/
structure CoveredCallRecord (α : Type) where
  spot : α
  shares : ℤ
  strike : α
  target_delta : α
  delta : Option α
  iv : Option α
  premium_mid : α
  premium_total : α
  breakeven : α
  max_profit_per_share : α
  max_profit_total : α
  max_return_pct : Option α
  annualized_max_return_pct : Option α
  cost_basis_total : α
deriving DecidableEq

/-- `OptionEngine.covered_call` (`engine.py`, lines 166-256) in its
explicit-strike mode (`strike is not None`, lines 196-256): the externally
fetched call quote is the `call` argument, the spot `s` is resolved, and the
date pair is the day difference `days`.  Lines 179-182 validate `shares`;
line 199 resolves the premium `mid or bid`; lines 202-205 run the call solver
and delta; lines 223-256 compute the strategy economics and build the
returned record (with `delta`/`iv` left absent when the solve failed). -/
def covered_call_with_strike (M : MathLib α) (s strike : α) (days : ℤ) (r q target_delta : α)
    (shares : ℤ) (call : PremiumQuote α) : Except String (CoveredCallRecord α) :=
  if shares ≤ 0 then .error "shares must be positive"
  else if shares % 100 ≠ 0 then
    .error "shares must be a multiple of 100 (1 option contract = 100 shares)"
  else
    match (match call.mid with | some m => some m | none => call.bid) with
    | none => .error "No usable call premium (mid/bid) returned from Nasdaq"
    | some prem =>
      let t_years : α := (days : α) / 365
      let inp : BsInputs α := ⟨s, strike, t_years, r, q⟩
      let iv := implied_vol_call_bisect M inp prem (1/1000000) 5 80 (1/1000000)
      let delta := match iv with
        | some v => some (bs_call_delta M inp v)
        | none => none
      let premium := prem
      let breakeven := s - premium
      let max_profit_per_share := (strike - s) + premium
      let max_profit_total := max_profit_per_share * (shares : α)
      let premium_total := premium * (shares : α)
      let cost_basis_total := (s - premium) * (shares : α)
      let max_return_pct := if s > 0 then some (max_profit_per_share / s) else none
      let annualized_max_return_pct := match max_return_pct with
        | some m => if t_years > 0 then some (m / t_years) else none
        | none => none
      .ok ⟨s, shares, strike, target_delta, delta, iv, premium, premium_total, breakeven,
        max_profit_per_share, max_profit_total, max_return_pct, annualized_max_return_pct,
        cost_basis_total⟩

/-- The error function computed by `math.erf`, in its mathematical
definition `erf x = (2/√π) · ∫ t in 0..x, e^(-t²)`. -/
noncomputable def erf (x : ℝ) : ℝ :=
  (2 / Real.sqrt Real.pi) * ∫ t in (0:ℝ)..x, Real.exp (-t ^ 2)

/-- The genuine host math library over `ℝ`: the idealized (exact
real-arithmetic) semantics of `math.exp`, `math.log`, `math.erf`,
`math.sqrt`. -/
noncomputable def Mreal : MathLib ℝ :=
  ⟨Real.exp, Real.log, erf, Real.sqrt⟩

/-- A deep in-the-money, short-expiry parameter set: spot 1, strike 100,
`t = 0.01` years, zero rate and yield.  Over the whole volatility search
interval `[1e-6, 5]` the put price stays within `1e-10` of 99, so the
bisection's `|f(midpoint)| < 1e-6` early exit fires at the first midpoint. -/
noncomputable def inp_flat : BsInputs ℝ := ⟨1, 100, 1/100, 0, 0⟩

/-- A computable stand-in for the host math library over `ℚ`, used to
evaluate the (math-library-generic) theorems on concrete inputs.  It agrees
with the real library at the points those evaluations consult directly:
`exp 0 = 1`, `log 1 = 0`, `sqrt 1 = 1`, `erf 0 = 0`. -/
def Mq : MathLib ℚ :=
  ⟨fun _ => 1, fun _ => 0, fun x => x, fun _ => 1⟩

/-! ## Theorems -/

/-- C7: Zero-time boundary: for every `BsInputs` with `t ≤ 0` and every
volatility `sigma`, `bs_put_delta` returns exactly `-1.0` when `s < k` and
exactly `0.0` otherwise, and the result does not depend on `sigma`. -/
theorem bs_put_delta_zero_time (M : MathLib α) (inp : BsInputs α) (sigma sigma' : α)
    (h : inp.t ≤ 0) :
    bs_put_delta M inp sigma = (if inp.s < inp.k then (-1 : α) else 0) ∧
      bs_put_delta M inp sigma = bs_put_delta M inp sigma' := by
  constructor <;> simp [bs_put_delta, if_pos h]

theorem bs_put_delta_zero_time_witness :
    bs_put_delta Mq ⟨1, 2, 0, 0, 0⟩ 3 = (if (1 : ℚ) < 2 then (-1 : ℚ) else 0) ∧
      bs_put_delta Mq ⟨1, 2, 0, 0, 0⟩ 3 = bs_put_delta Mq ⟨1, 2, 0, 0, 0⟩ 7 :=
  bs_put_delta_zero_time Mq ⟨1, 2, 0, 0, 0⟩ 3 7 (by decide)

/-- C8: Zero-volatility branch: for every `BsInputs` with `t > 0` and every
`sigma ≤ 0`, with forward `F = S·exp((r-q)·T)`, `bs_put_price` returns
`exp(-rT)·max(K-F, 0)` and `bs_put_delta` returns `-exp(-qT)` when `F < K`
and `0` otherwise. -/
theorem bs_put_zero_vol (M : MathLib α) (inp : BsInputs α) (sigma : α)
    (ht : 0 < inp.t) (hs : sigma ≤ 0) :
    bs_put_price M inp sigma
        = M.exp (-inp.r * inp.t) * max (inp.k - inp.s * M.exp ((inp.r - inp.q) * inp.t)) 0 ∧
      bs_put_delta M inp sigma
        = (if inp.s * M.exp ((inp.r - inp.q) * inp.t) < inp.k
            then -(M.exp (-inp.q * inp.t)) else 0) := by
  have h1 : ¬ inp.t ≤ 0 := not_le.mpr ht
  constructor <;> simp [bs_put_price, bs_put_delta, if_neg h1, if_pos hs]

theorem bs_put_zero_vol_witness :
    bs_put_price Mq ⟨1, 2, 1, 0, 0⟩ 0
        = Mq.exp (-0 * 1) * max (2 - 1 * Mq.exp ((0 - 0) * 1)) 0 ∧
      bs_put_delta Mq ⟨1, 2, 1, 0, 0⟩ 0
        = (if (1 : ℚ) * Mq.exp ((0 - 0) * 1) < 2 then -(Mq.exp (-0 * 1)) else 0) :=
  bs_put_zero_vol Mq ⟨1, 2, 1, 0, 0⟩ 0 (by decide) (by decide)

/-- C2: `implied_vol_put_bisect` (at the Python defaults `lo=1e-6, hi=5.0,
max_iter=80, tol=1e-6`) returns the no-solution sentinel `none` exactly when:
the target price or an input is non-positive; or the target lies outside the
no-arbitrage band `[max(K·e^(-rT) - S·e^(-qT), 0) - 1e-9, K·e^(-rT) + 1e-9]`;
or the put price at `sigma = 1e-6` and at `sigma = 5.0` both differ from the
target with the same nonzero sign.  In every other case it returns a value;
the Lean function is total, matching the claim that the Python function
never raises. -/
theorem implied_vol_put_none_iff (M : MathLib α) (inp : BsInputs α) (target : α) :
    implied_vol_put_bisect M inp target (1/1000000) 5 80 (1/1000000) = none ↔
      ((target ≤ 0 ∨ inp.s ≤ 0 ∨ inp.k ≤ 0 ∨ inp.t ≤ 0)
        ∨ ¬ (max (inp.k * M.exp (-inp.r * inp.t) - inp.s * M.exp (-inp.q * inp.t)) 0
              - 1/1000000000 ≤ target
            ∧ target ≤ inp.k * M.exp (-inp.r * inp.t) + 1/1000000000)
        ∨ ((0 < bs_put_price M inp (1/1000000) - target
              ∧ 0 < bs_put_price M inp 5 - target)
            ∨ (bs_put_price M inp (1/1000000) - target < 0
              ∧ bs_put_price M inp 5 - target < 0))) := by
  simp only [implied_vol_put_bisect]
  split_ifs with h1 h2 h3 h4 h5 <;>
    simp_all [mul_pos_iff, not_or, sub_eq_zero, lt_irrefl]

/-- C3: when the guards pass and the root is bracketed,
`implied_vol_put_bisect` runs the bisection loop with an iteration budget of
80 on `f(σ) = bs_put_price(σ) - target` over `[1e-6, 5.0]`; the loop returns
the current midpoint as soon as `|f(midpoint)| < tol` or the bracket width
drops below `1e-6`; and at an exhausted budget (fuel 0) it returns the final
bracket midpoint rather than failing. -/
theorem put_bisect_algorithm :
    (∀ (M : MathLib α) (inp : BsInputs α) (target tol a b fa : α),
        put_bisect_loop M inp target tol 0 a b fa = (1/2) * (a + b))
    ∧ (∀ (M : MathLib α) (inp : BsInputs α) (target tol a b fa : α) (n : ℕ),
        (|bs_put_price M inp ((1/2) * (a + b)) - target| < tol ∨ b - a < 1/1000000) →
        put_bisect_loop M inp target tol (n+1) a b fa = (1/2) * (a + b))
    ∧ (∀ (M : MathLib α) (inp : BsInputs α) (target : α),
        ¬ (target ≤ 0 ∨ inp.s ≤ 0 ∨ inp.k ≤ 0 ∨ inp.t ≤ 0) →
        (max (inp.k * M.exp (-inp.r * inp.t) - inp.s * M.exp (-inp.q * inp.t)) 0
            - 1/1000000000 ≤ target
          ∧ target ≤ inp.k * M.exp (-inp.r * inp.t) + 1/1000000000) →
        bs_put_price M inp (1/1000000) - target ≠ 0 →
        bs_put_price M inp 5 - target ≠ 0 →
        ¬ (0 < (bs_put_price M inp (1/1000000) - target) * (bs_put_price M inp 5 - target)) →
        implied_vol_put_bisect M inp target (1/1000000) 5 80 (1/1000000)
          = some (put_bisect_loop M inp target (1/1000000) 80 (1/1000000) 5
              (bs_put_price M inp (1/1000000) - target))) := by
  refine ⟨fun M inp target tol a b fa => rfl, ?_, ?_⟩
  · intro M inp target tol a b fa n h
    simp only [put_bisect_loop]
    rw [if_pos h]
  · intro M inp target h1 h2 h3 h4 h5
    simp only [implied_vol_put_bisect]
    rw [if_neg h1, if_neg (not_not_intro h2), if_neg h3, if_neg h4, if_neg h5]

theorem put_bisect_algorithm_witness :
    put_bisect_loop Mq ⟨1, 1, 1, 0, 0⟩ (3/10) (1/1000000) 0 (1/4) (3/4) 1
        = (1/2) * (1/4 + 3/4)
    ∧ put_bisect_loop Mq ⟨1, 1, 1, 0, 0⟩ (3/10) (1/1000000) (4+1) 1 1 1 = (1/2) * (1 + 1)
    ∧ implied_vol_put_bisect Mq ⟨1, 1, 1, 0, 0⟩ (3/10) (1/1000000) 5 80 (1/1000000)
        = some (put_bisect_loop Mq ⟨1, 1, 1, 0, 0⟩ (3/10) (1/1000000) 80 (1/1000000) 5
            (bs_put_price Mq ⟨1, 1, 1, 0, 0⟩ (1/1000000) - 3/10)) :=
  ⟨put_bisect_algorithm.1 Mq ⟨1, 1, 1, 0, 0⟩ (3/10) (1/1000000) (1/4) (3/4) 1,
   put_bisect_algorithm.2.1 Mq ⟨1, 1, 1, 0, 0⟩ (3/10) (1/1000000) 1 1 1 4
     (Or.inr (by norm_num)),
   put_bisect_algorithm.2.2 Mq ⟨1, 1, 1, 0, 0⟩ (3/10) (by norm_num) (by norm_num [Mq])
     (by norm_num [bs_put_price, norm_cdf, Mq]) (by norm_num [bs_put_price, norm_cdf, Mq])
     (by norm_num [bs_put_price, norm_cdf, Mq])⟩

theorem find_best_eq_run_best (M : MathLib α) (right : OptRight) (base : BsInputs α)
    (target_delta : α) (chain : List (ChainRow α)) (acc : Option (α × Candidate α)) :
    find_best M right base target_delta acc chain
      = run_best acc (eligible_entries M right base target_delta chain) := by
  induction chain generalizing acc with
  | nil => rfl
  | cons row rest ih =>
    simp only [find_best, eligible_entries, List.filterMap_cons]
    cases h : eval_row M right base target_delta row with
    | none => simpa [eligible_entries] using ih acc
    | some dc =>
      simp only [run_best]
      simpa [eligible_entries] using ih _

theorem run_best_some_spec (l : List (α × Candidate α)) (p : α × Candidate α) :
    ∃ out, run_best (some p) l = some out
      ∧ out.1 ≤ p.1
      ∧ (∀ x ∈ l, out.1 ≤ x.1)
      ∧ (out = p ∨ ∃ i, ∃ hi : i < l.length, out = l.get ⟨i, hi⟩ ∧ out.1 < p.1
          ∧ ∀ j, ∀ hj : j < i, out.1 < (l.get ⟨j, hj.trans hi⟩).1) := by
  induction l generalizing p with
  | nil => exact ⟨p, rfl, le_refl _, by simp, Or.inl rfl⟩
  | cons x l ih =>
    by_cases hx : x.1 < p.1
    · obtain ⟨out, hrun, hle, hall, hfirst⟩ := ih x
      refine ⟨out, by simpa [run_best, hx] using hrun, hle.trans hx.le, ?_, ?_⟩
      · intro y hy
        rcases List.mem_cons.mp hy with rfl | hy
        · exact hle
        · exact hall y hy
      · right
        rcases hfirst with rfl | ⟨i, hi, hout, hlt, hbefore⟩
        · exact ⟨0, by simp, by simp, hx, fun j hj => absurd hj (Nat.not_lt_zero _)⟩
        · refine ⟨i + 1, Nat.succ_lt_succ hi, by simpa using hout, hlt.trans hx, ?_⟩
          intro j hj
          cases j with
          | zero => simpa using hlt
          | succ j => simpa using hbefore j (Nat.lt_of_succ_lt_succ hj)
    · obtain ⟨out, hrun, hle, hall, hfirst⟩ := ih p
      refine ⟨out, by simpa [run_best, hx] using hrun, hle, ?_, ?_⟩
      · intro y hy
        rcases List.mem_cons.mp hy with rfl | hy
        · exact hle.trans (not_lt.mp hx)
        · exact hall y hy
      · rcases hfirst with rfl | ⟨i, hi, hout, hlt, hbefore⟩
        · exact Or.inl rfl
        · refine Or.inr ⟨i + 1, Nat.succ_lt_succ hi, by simpa using hout, hlt, ?_⟩
          intro j hj
          cases j with
          | zero => simpa using hlt.trans_le (not_lt.mp hx)
          | succ j => simpa using hbefore j (Nat.lt_of_succ_lt_succ hj)

/-- C5: if every row of the chain is filtered out (its per-row evaluation
yields nothing: mid absent or `mid ≤ 0`, or the implied-volatility solve
reports no solution), `find_strike_for_delta` fails with the no-candidate
error; it never returns a fabricated or default strike. -/
theorem find_strike_no_candidate (M : MathLib α) (chain : List (ChainRow α)) (s : α)
    (days : ℤ) (r q target_delta : α) (h : 0 < days)
    (hall : ∀ row ∈ chain,
        eval_row M .put ⟨s, 1, (days : α) / 365, r, q⟩ target_delta row = none) :
    find_strike_for_delta M .put chain s days r q target_delta
      = .error "Could not compute delta for any strike (missing mid prices or IV solve failed)" := by
  have hel : eligible_entries M .put ⟨s, 1, (days : α) / 365, r, q⟩ target_delta chain = [] :=
    List.filterMap_eq_nil_iff.mpr hall
  simp only [find_strike_for_delta, if_neg (not_le.mpr h),
    find_best_eq_run_best, hel, run_best]

theorem find_strike_no_candidate_witness :
    find_strike_for_delta Mq .put [⟨50, none, none, none, none⟩] 82 7 0 0 (-(1/5))
      = .error "Could not compute delta for any strike (missing mid prices or IV solve failed)" :=
  find_strike_no_candidate Mq [⟨50, none, none, none, none⟩] 82 7 0 0 (-(1/5))
    (by decide) (by simp [eval_row])

/-- C4: the put-side strike selector iterates the chain rows in order,
skipping rows whose per-row evaluation yields nothing (mid absent or
`mid ≤ 0`, or no implied-volatility solution); among the remaining
`(diff, cand)` entries (`eligible_entries`, in chain order) any returned
candidate is the candidate of the entry minimizing
`diff = |computed_delta - target_delta|`, and ties are broken by first
encounter: the chosen entry's `diff` is `≤` every eligible entry's and
strictly `<` that of every earlier eligible entry, so a later row at equal
distance never replaces an earlier one. -/
theorem find_strike_put_selects_first_min (M : MathLib α) (chain : List (ChainRow α))
    (s : α) (days : ℤ) (r q target_delta : α) (h : 0 < days) :
    ∀ c, find_strike_for_delta M .put chain s days r q target_delta = Except.ok c →
      ∃ i, ∃ hi : i < (eligible_entries M .put ⟨s, 1, (days : α) / 365, r, q⟩
          target_delta chain).length,
        c = ((eligible_entries M .put ⟨s, 1, (days : α) / 365, r, q⟩
            target_delta chain).get ⟨i, hi⟩).2
        ∧ (∀ j, ∀ hj : j < (eligible_entries M .put ⟨s, 1, (days : α) / 365, r, q⟩
              target_delta chain).length,
            ((eligible_entries M .put ⟨s, 1, (days : α) / 365, r, q⟩
                target_delta chain).get ⟨i, hi⟩).1
              ≤ ((eligible_entries M .put ⟨s, 1, (days : α) / 365, r, q⟩
                  target_delta chain).get ⟨j, hj⟩).1)
        ∧ (∀ j, ∀ hj : j < i,
            ((eligible_entries M .put ⟨s, 1, (days : α) / 365, r, q⟩
                target_delta chain).get ⟨i, hi⟩).1
              < ((eligible_entries M .put ⟨s, 1, (days : α) / 365, r, q⟩
                  target_delta chain).get ⟨j, hj.trans hi⟩).1) := by
  intro c hok
  simp only [find_strike_for_delta, if_neg (not_le.mpr h), find_best_eq_run_best] at hok
  cases hel : eligible_entries M .put ⟨s, 1, (days : α) / 365, r, q⟩ target_delta chain with
  | nil => simp [hel, run_best] at hok
  | cons x l =>
    rw [hel] at hok
    obtain ⟨out, hrun, hle, hall, hfirst⟩ := run_best_some_spec l x
    have hrun2 : run_best none (x :: l) = some out := by simpa [run_best] using hrun
    rw [hrun2] at hok
    have hc : c = out.2 := by
      simpa using hok.symm
    subst hc
    rcases hfirst with rfl | ⟨i, hi, hout, hlt, hbefore⟩
    · refine ⟨0, Nat.succ_pos _, rfl, ?_, fun j hj => absurd hj (Nat.not_lt_zero _)⟩
      intro j hj
      cases j with
      | zero => exact le_refl _
      | succ j =>
        simpa using hall _ (List.get_mem l j (Nat.lt_of_succ_lt_succ hj))
    · subst hout
      refine ⟨i + 1, Nat.succ_lt_succ hi, by simp, ?_, ?_⟩
      · intro j hj
        cases j with
        | zero => simpa using hlt.le
        | succ j =>
          simpa using hall _ (List.get_mem l j (Nat.lt_of_succ_lt_succ hj))
      · intro j hj
        cases j with
        | zero => simpa using hlt
        | succ j => simpa using hbefore j (Nat.lt_of_succ_lt_succ hj)

theorem find_strike_put_selects_first_min_witness :
    (0 : ℤ) < 365
    ∧ (∀ c, find_strike_for_delta Mq .put [⟨1, none, none, none, some (3/10)⟩]
          1 365 0 0 (-(1/5)) = Except.ok c →
        ∃ i, ∃ hi : i < (eligible_entries Mq .put ⟨1, 1, ((365 : ℤ) : ℚ) / 365, 0, 0⟩
            (-(1/5)) [⟨1, none, none, none, some (3/10)⟩]).length,
          c = ((eligible_entries Mq .put ⟨1, 1, ((365 : ℤ) : ℚ) / 365, 0, 0⟩
              (-(1/5)) [⟨1, none, none, none, some (3/10)⟩]).get ⟨i, hi⟩).2
          ∧ (∀ j, ∀ hj : j < (eligible_entries Mq .put ⟨1, 1, ((365 : ℤ) : ℚ) / 365, 0, 0⟩
                (-(1/5)) [⟨1, none, none, none, some (3/10)⟩]).length,
              ((eligible_entries Mq .put ⟨1, 1, ((365 : ℤ) : ℚ) / 365, 0, 0⟩
                  (-(1/5)) [⟨1, none, none, none, some (3/10)⟩]).get ⟨i, hi⟩).1
                ≤ ((eligible_entries Mq .put ⟨1, 1, ((365 : ℤ) : ℚ) / 365, 0, 0⟩
                    (-(1/5)) [⟨1, none, none, none, some (3/10)⟩]).get ⟨j, hj⟩).1)
          ∧ (∀ j, ∀ hj : j < i,
              ((eligible_entries Mq .put ⟨1, 1, ((365 : ℤ) : ℚ) / 365, 0, 0⟩
                  (-(1/5)) [⟨1, none, none, none, some (3/10)⟩]).get ⟨i, hi⟩).1
                < ((eligible_entries Mq .put ⟨1, 1, ((365 : ℤ) : ℚ) / 365, 0, 0⟩
                    (-(1/5)) [⟨1, none, none, none, some (3/10)⟩]).get ⟨j, hj.trans hi⟩).1)) :=
  ⟨by decide,
   find_strike_put_selects_first_min Mq [⟨1, none, none, none, some (3/10)⟩]
     1 365 0 0 (-(1/5)) (by decide)⟩

/-- C6: the call-side entry points mirroring the put solver and delta are the
ones the selector invokes for `right = call`.  First conjunct: the modelled
`implied_vol_call_bisect` uses the call no-arbitrage band with lower bound
`max(S·e^(-qT) - K·e^(-rT), 0)` and upper bound `S·e^(-qT)` (its sentinel
cases are exactly the mirror of the put side).  Second conjunct: for
`right = call` the selector's per-row evaluation computes the volatility via
`implied_vol_call_bisect` and the delta via `bs_call_delta`. -/
theorem call_side_mirror :
    (∀ (M : MathLib α) (inp : BsInputs α) (target : α),
        implied_vol_call_bisect M inp target (1/1000000) 5 80 (1/1000000) = none ↔
          ((target ≤ 0 ∨ inp.s ≤ 0 ∨ inp.k ≤ 0 ∨ inp.t ≤ 0)
            ∨ ¬ (max (inp.s * M.exp (-inp.q * inp.t) - inp.k * M.exp (-inp.r * inp.t)) 0
                  - 1/1000000000 ≤ target
                ∧ target ≤ inp.s * M.exp (-inp.q * inp.t) + 1/1000000000)
            ∨ ((0 < bs_call_price M inp (1/1000000) - target
                  ∧ 0 < bs_call_price M inp 5 - target)
                ∨ (bs_call_price M inp (1/1000000) - target < 0
                  ∧ bs_call_price M inp 5 - target < 0))))
    ∧ (∀ (M : MathLib α) (base : BsInputs α) (td : α) (row : ChainRow α) (mid : α),
        row.mid = some mid → 0 < mid →
        eval_row M .call base td row
          = Option.map (fun iv =>
              (|bs_call_delta M ⟨base.s, row.strike, base.t, base.r, base.q⟩ iv - td|,
                (⟨base.s, .call, td, row.strike,
                  bs_call_delta M ⟨base.s, row.strike, base.t, base.r, base.q⟩ iv, iv, mid,
                  row.bid, row.ask⟩ : Candidate α)))
              (implied_vol_call_bisect M ⟨base.s, row.strike, base.t, base.r, base.q⟩ mid
                (1/1000000) 5 80 (1/1000000))) := by
  constructor
  · intro M inp target
    simp only [implied_vol_call_bisect]
    split_ifs with h1 h2 h3 h4 h5 <;>
      simp_all [mul_pos_iff, not_or, sub_eq_zero, lt_irrefl]
  · intro M base td row mid hm hmid
    simp only [eval_row, hm]
    rw [if_neg (not_le.mpr hmid)]
    cases hiv : implied_vol_call_bisect M ⟨base.s, row.strike, base.t, base.r, base.q⟩ mid
        (1/1000000) 5 80 (1/1000000) <;> rfl

theorem call_side_mirror_witness :
    eval_row Mq .call ⟨100, 105, 1, 0, 0⟩ (1/5) ⟨105, none, none, none, some 2⟩
      = Option.map (fun iv =>
          (|bs_call_delta Mq ⟨100, 105, 1, 0, 0⟩ iv - 1/5|,
            (⟨100, .call, 1/5, 105, bs_call_delta Mq ⟨100, 105, 1, 0, 0⟩ iv, iv, 2,
              none, none⟩ : Candidate ℚ)))
          (implied_vol_call_bisect Mq ⟨100, 105, 1, 0, 0⟩ 2 (1/1000000) 5 80 (1/1000000)) :=
  call_side_mirror.2 Mq ⟨100, 105, 1, 0, 0⟩ (1/5)
    ⟨105, none, none, none, some 2⟩ 2 rfl (by decide)

/-- C10 (amended form): in the explicit-strike covered-call mode, with valid
shares and a resolvable premium, the engine always returns `Except.ok` of a
record whose `iv` field is exactly the call solver's output and whose `delta`
is derived from it (both are the absent marker when the solve fails, while
every other field of the record is populated from the premium and spot); with
invalid shares or no premium it fails with an error.  The claim's blanket
no-partial-results guarantee is therefore violated exactly when the solver
returns the sentinel. -/
theorem covered_call_strike_mode_record (M : MathLib α) (s strike : α) (days : ℤ)
    (r q target_delta : α) (shares : ℤ) (call : PremiumQuote α) (prem : α)
    (hsh : 0 < shares) (hmod : shares % 100 = 0)
    (hprem : call.mid = some prem ∨ (call.mid = none ∧ call.bid = some prem)) :
    covered_call_with_strike M s strike days r q target_delta shares call
      = Except.ok ⟨s, shares, strike, target_delta,
          Option.map (fun v => bs_call_delta M ⟨s, strike, (days : α)/365, r, q⟩ v)
            (implied_vol_call_bisect M ⟨s, strike, (days : α)/365, r, q⟩ prem
              (1/1000000) 5 80 (1/1000000)),
          implied_vol_call_bisect M ⟨s, strike, (days : α)/365, r, q⟩ prem
            (1/1000000) 5 80 (1/1000000),
          prem, prem * (shares : α), s - prem, (strike - s) + prem,
          ((strike - s) + prem) * (shares : α),
          (if s > 0 then some (((strike - s) + prem) / s) else none),
          (if (days : α)/365 > 0 then
              Option.map (fun m => m / ((days : α)/365))
                (if s > 0 then some (((strike - s) + prem) / s) else none)
            else none),
          (s - prem) * (shares : α)⟩ := by
  have h100 : ¬ shares % 100 ≠ 0 := not_not_intro hmod
  have hm : (match call.mid with | some m => some m | none => call.bid) = some prem := by
    rcases hprem with hm | ⟨hm, hb⟩
    · simp [hm]
    · simp [hm, hb]
  simp only [covered_call_with_strike, if_neg (not_le.mpr hsh), if_neg h100, hm]
  cases hiv : implied_vol_call_bisect M ⟨s, strike, (days : α)/365, r, q⟩ prem
      (1/1000000) 5 80 (1/1000000) <;>
    split_ifs <;> simp_all

theorem covered_call_strike_mode_record_witness :
    (0 : ℤ) < 100 ∧ (100 : ℤ) % 100 = 0
    ∧ covered_call_with_strike Mq 100 105 30 0 0 (1/5) 100 ⟨none, none, none, some 2⟩
      = Except.ok ⟨100, 100, 105, 1/5,
          Option.map (fun v => bs_call_delta Mq ⟨100, 105, ((30 : ℤ) : ℚ)/365, 0, 0⟩ v)
            (implied_vol_call_bisect Mq ⟨100, 105, ((30 : ℤ) : ℚ)/365, 0, 0⟩ 2
              (1/1000000) 5 80 (1/1000000)),
          implied_vol_call_bisect Mq ⟨100, 105, ((30 : ℤ) : ℚ)/365, 0, 0⟩ 2
            (1/1000000) 5 80 (1/1000000),
          2, 2 * ((100 : ℤ) : ℚ), 100 - 2, (105 - 100) + 2,
          ((105 - 100) + 2) * ((100 : ℤ) : ℚ),
          (if (100 : ℚ) > 0 then some (((105 - 100) + 2) / 100) else none),
          (if ((30 : ℤ) : ℚ)/365 > 0 then
              Option.map (fun m => m / (((30 : ℤ) : ℚ)/365))
                (if (100 : ℚ) > 0 then some (((105 - 100) + 2) / 100) else none)
            else none),
          (100 - 2) * ((100 : ℤ) : ℚ)⟩ :=
  ⟨by decide, by decide,
   covered_call_strike_mode_record Mq 100 105 30 0 0 (1/5) 100 ⟨none, none, none, some 2⟩ 2
     (by decide) (by decide) (Or.inl rfl)⟩

theorem integrable_exp_neg_sq : MeasureTheory.Integrable (fun t : ℝ => Real.exp (-t ^ 2)) := by
  simpa using integrable_exp_neg_mul_sq one_pos

theorem gauss_Ioi : (∫ t in Set.Ioi (0:ℝ), Real.exp (-t ^ 2)) = Real.sqrt Real.pi / 2 := by
  simpa using integral_gaussian_Ioi 1

theorem exp_neg_sq_tail_pos (y : ℝ) : 0 < ∫ t in Set.Ioi y, Real.exp (-t ^ 2) := by
  have h1 : 0 ≤ᵐ[MeasureTheory.volume.restrict (Set.Ioi y)] fun t : ℝ => Real.exp (-t ^ 2) :=
    Filter.Eventually.of_forall fun t => (Real.exp_pos _).le
  rw [MeasureTheory.setIntegral_pos_iff_support_of_nonneg_ae h1
    integrable_exp_neg_sq.integrableOn]
  have hsupp : Function.support (fun t : ℝ => Real.exp (-t ^ 2)) = Set.univ := by
    ext t; simp [Function.mem_support, Real.exp_ne_zero]
  rw [hsupp, Set.univ_inter, Real.volume_Ioi]
  simp

theorem exp_neg_sq_split (y : ℝ) (hy : 0 < y) :
    (∫ t in (0:ℝ)..y, Real.exp (-t ^ 2))
      = Real.sqrt Real.pi / 2 - ∫ t in Set.Ioi y, Real.exp (-t ^ 2) := by
  have hunion : Set.Ioc (0:ℝ) y ∪ Set.Ioi y = Set.Ioi 0 := Set.Ioc_union_Ioi_eq_Ioi hy.le
  have hsplit : (∫ t in Set.Ioi (0:ℝ), Real.exp (-t ^ 2))
      = (∫ t in Set.Ioc (0:ℝ) y, Real.exp (-t ^ 2)) + ∫ t in Set.Ioi y, Real.exp (-t ^ 2) := by
    rw [← hunion]
    exact MeasureTheory.setIntegral_union Set.Ioc_disjoint_Ioi_same measurableSet_Ioi
      integrable_exp_neg_sq.integrableOn integrable_exp_neg_sq.integrableOn
  rw [intervalIntegral.integral_of_le hy.le]
  rw [gauss_Ioi] at hsplit
  linarith

theorem integrableOn_mul_exp_neg_sq (y : ℝ) :
    MeasureTheory.IntegrableOn (fun t : ℝ => t * Real.exp (-t ^ 2)) (Set.Ioi y) := by
  have := integrable_mul_exp_neg_mul_sq (one_pos (α := ℝ))
  simpa using this.integrableOn

theorem exp_neg_sq_tail_le (y : ℝ) (hy : 0 < y) :
    (∫ t in Set.Ioi y, Real.exp (-t ^ 2)) ≤ Real.exp (-y ^ 2) / (2 * y) := by
  have hmoment : (∫ t in Set.Ioi y, t * Real.exp (-t ^ 2)) = Real.exp (-y ^ 2) / 2 := by
    have hderiv : ∀ x ∈ Set.Ici y,
        HasDerivAt (fun t : ℝ => -(Real.exp (-t ^ 2) / 2)) (x * Real.exp (-x ^ 2)) x := by
      intro x _
      have h1 : HasDerivAt (fun t : ℝ => -t ^ 2) (-(2 * x)) x := by
        simpa using (hasDerivAt_pow 2 x).neg
      have h3 := (h1.exp.div_const 2).neg
      convert h3 using 1
      ring
    have htend : Filter.Tendsto (fun t : ℝ => -(Real.exp (-t ^ 2) / 2))
        Filter.atTop (nhds 0) := by
      have h0 : Filter.Tendsto (fun t : ℝ => -t ^ 2) Filter.atTop Filter.atBot :=
        Filter.tendsto_neg_atBot_iff.mpr (Filter.tendsto_pow_atTop two_ne_zero)
      have h1 : Filter.Tendsto (fun t : ℝ => Real.exp (-t ^ 2)) Filter.atTop (nhds 0) :=
        Real.tendsto_exp_atBot.comp h0
      have h2 := (h1.div_const 2).neg
      simpa using h2
    have := MeasureTheory.integral_Ioi_of_hasDerivAt_of_tendsto' hderiv
      (integrableOn_mul_exp_neg_sq y) htend
    simpa using this
  have heq : (fun t : ℝ => (t / y) * Real.exp (-t ^ 2))
      = fun t : ℝ => (1 / y) * (t * Real.exp (-t ^ 2)) := by
    funext t; ring
  have hcomp : (∫ t in Set.Ioi y, Real.exp (-t ^ 2))
      ≤ ∫ t in Set.Ioi y, (t / y) * Real.exp (-t ^ 2) := by
    refine MeasureTheory.setIntegral_mono_on integrable_exp_neg_sq.integrableOn ?_
      measurableSet_Ioi ?_
    · rw [heq]
      exact (integrableOn_mul_exp_neg_sq y).const_mul _
    · intro t ht
      have h1t : 1 ≤ t / y := (one_le_div hy).mpr (le_of_lt ht)
      exact le_mul_of_one_le_left (Real.exp_pos _).le h1t
  have heval : (∫ t in Set.Ioi y, (t / y) * Real.exp (-t ^ 2))
      = Real.exp (-y ^ 2) / (2 * y) := by
    rw [heq, MeasureTheory.integral_mul_left, hmoment]
    field_simp
    ring
  linarith

theorem sqrt_pi_pos : 0 < Real.sqrt Real.pi := Real.sqrt_pos.mpr Real.pi_pos

theorem erf_eq (x : ℝ) :
    erf x = (2 / Real.sqrt Real.pi) * ∫ t in (0:ℝ)..x, Real.exp (-t ^ 2) := rfl

theorem erf_nonpos_of_nonpos (x : ℝ) (hx : x ≤ 0) : erf x ≤ 0 := by
  have h : (∫ t in (0:ℝ)..x, Real.exp (-t ^ 2)) ≤ 0 := by
    rw [intervalIntegral.integral_symm x 0]
    have h0 : 0 ≤ ∫ t in x..(0:ℝ), Real.exp (-t ^ 2) :=
      intervalIntegral.integral_nonneg hx fun u _ => (Real.exp_pos _).le
    linarith
  have h2 : (0:ℝ) ≤ 2 / Real.sqrt Real.pi := by positivity
  rw [erf_eq]
  exact mul_nonpos_of_nonneg_of_nonpos h2 h

theorem erf_lt_one (x : ℝ) : erf x < 1 := by
  rcases le_or_lt x 0 with hx | hx
  · exact lt_of_le_of_lt (erf_nonpos_of_nonpos x hx) one_pos
  · rw [erf_eq, exp_neg_sq_split x hx]
    have hT := exp_neg_sq_tail_pos x
    have hπ := sqrt_pi_pos
    have hkey : (2 / Real.sqrt Real.pi)
        * (Real.sqrt Real.pi / 2 - ∫ t in Set.Ioi x, Real.exp (-t ^ 2))
        = 1 - (2 / Real.sqrt Real.pi) * ∫ t in Set.Ioi x, Real.exp (-t ^ 2) := by
      field_simp
      ring
    rw [hkey]
    have hpos : 0 < (2 / Real.sqrt Real.pi) * ∫ t in Set.Ioi x, Real.exp (-t ^ 2) :=
      mul_pos (by positivity) hT
    linarith

theorem erf_neg (x : ℝ) : erf (-x) = -erf x := by
  have h2 : (∫ t in (0:ℝ)..x, Real.exp (-(-t) ^ 2)) = ∫ t in -x..-(0:ℝ), Real.exp (-t ^ 2) :=
    intervalIntegral.integral_comp_neg fun t => Real.exp (-t ^ 2)
  simp only [neg_sq, neg_zero] at h2
  have h3 : (∫ t in (0:ℝ)..(-x), Real.exp (-t ^ 2)) = -∫ t in (-x)..(0:ℝ), Real.exp (-t ^ 2) :=
    intervalIntegral.integral_symm (-x) 0
  rw [erf_eq, erf_eq, h3, ← h2]
  ring

theorem neg_one_lt_erf (x : ℝ) : -1 < erf x := by
  have h := erf_lt_one (-x)
  rw [erf_neg] at h
  linarith

theorem erf_one_sub_le (y : ℝ) (hy : 1 ≤ y) : 1 - Real.exp (-y ^ 2) ≤ erf y := by
  have hy0 : (0:ℝ) < y := lt_of_lt_of_le one_pos hy
  have htail := exp_neg_sq_tail_le y hy0
  have hπ := sqrt_pi_pos
  have hπ1 : 1 ≤ Real.sqrt Real.pi := by
    rw [show (1:ℝ) = Real.sqrt 1 from Real.sqrt_one.symm]
    exact Real.sqrt_le_sqrt (by linarith [Real.pi_gt_three])
  rw [erf_eq, exp_neg_sq_split y hy0]
  have hexp : (0:ℝ) < Real.exp (-y ^ 2) := Real.exp_pos _
  have hT := exp_neg_sq_tail_pos y
  have hkey : (2 / Real.sqrt Real.pi)
      * (Real.sqrt Real.pi / 2 - ∫ t in Set.Ioi y, Real.exp (-t ^ 2))
      = 1 - (2 / Real.sqrt Real.pi) * ∫ t in Set.Ioi y, Real.exp (-t ^ 2) := by
    field_simp
    ring
  rw [hkey]
  have h1 : (2 / Real.sqrt Real.pi) * (∫ t in Set.Ioi y, Real.exp (-t ^ 2))
      ≤ (2 / Real.sqrt Real.pi) * (Real.exp (-y ^ 2) / (2 * y)) :=
    mul_le_mul_of_nonneg_left htail (by positivity)
  have h2 : (2 / Real.sqrt Real.pi) * (Real.exp (-y ^ 2) / (2 * y)) ≤ Real.exp (-y ^ 2) := by
    have hden : (0:ℝ) < Real.sqrt Real.pi * (2 * y) := by positivity
    rw [div_mul_div_comm, div_le_iff hden]
    nlinarith [mul_le_mul_of_nonneg_right hπ1 hy0.le]
  linarith

theorem Mreal_norm_cdf_eq (x : ℝ) :
    norm_cdf Mreal x = (1/2) * (1 + erf (x / Real.sqrt 2)) := rfl

theorem norm_cdf_le_one_real (x : ℝ) : norm_cdf Mreal x ≤ 1 := by
  have h := erf_lt_one (x / Real.sqrt 2)
  rw [Mreal_norm_cdf_eq]
  linarith

theorem norm_cdf_pos_real (x : ℝ) : 0 < norm_cdf Mreal x := by
  have h := neg_one_lt_erf (x / Real.sqrt 2)
  rw [Mreal_norm_cdf_eq]
  linarith

theorem norm_cdf_lt_one_real (x : ℝ) : norm_cdf Mreal x < 1 := by
  have h := erf_lt_one (x / Real.sqrt 2)
  rw [Mreal_norm_cdf_eq]
  linarith

theorem exp_neg_29_small : Real.exp (-29) ≤ 1/1000000000000 := by
  have h1 : (2.7182818283 : ℝ) ^ (29:ℕ) ≤ Real.exp 1 ^ (29:ℕ) :=
    pow_le_pow_left (by norm_num) Real.exp_one_gt_d9.le 29
  have h2 : Real.exp 29 = Real.exp 1 ^ (29:ℕ) := by
    rw [← Real.exp_nat_mul]
    norm_num
  have h3 : (1000000000000 : ℝ) ≤ Real.exp 29 := by
    rw [h2]
    calc (1000000000000 : ℝ) ≤ (2.7182818283 : ℝ) ^ (29:ℕ) := by norm_num
      _ ≤ _ := h1
  rw [Real.exp_neg, show (1/1000000000000 : ℝ) = (1000000000000 : ℝ)⁻¹ by norm_num]
  exact inv_le_inv_of_le (by norm_num) h3

theorem norm_cdf_ge_real (z : ℝ) (hz : (31/4 : ℝ) ≤ z) :
    1 - Real.exp (-29) / 2 ≤ norm_cdf Mreal z := by
  have h2 : (0:ℝ) < Real.sqrt 2 := Real.sqrt_pos.mpr two_pos
  have hs2 : Real.sqrt 2 ≤ 3/2 := by
    rw [show (3/2:ℝ) = Real.sqrt ((3/2) ^ 2) from (Real.sqrt_sq (by norm_num)).symm]
    exact Real.sqrt_le_sqrt (by norm_num)
  have hy1 : 1 ≤ z / Real.sqrt 2 := by
    rw [le_div_iff h2]
    nlinarith
  have hysq : (29:ℝ) ≤ (z / Real.sqrt 2) ^ 2 := by
    rw [div_pow, Real.sq_sqrt (by norm_num : (0:ℝ) ≤ 2), le_div_iff (by norm_num : (0:ℝ) < 2)]
    nlinarith
  have herf := erf_one_sub_le (z / Real.sqrt 2) hy1
  have hexp : Real.exp (-(z / Real.sqrt 2) ^ 2) ≤ Real.exp (-29) :=
    Real.exp_le_exp.mpr (by linarith)
  rw [Mreal_norm_cdf_eq]
  linarith

theorem log_hundred_bounds : 4 < Real.log 100 ∧ Real.log 100 < 5 := by
  constructor
  · rw [Real.lt_log_iff_exp_lt (by norm_num : (0:ℝ) < 100)]
    have h2 : Real.exp 4 = Real.exp 1 ^ (4:ℕ) := by
      rw [← Real.exp_nat_mul]
      norm_num
    have h1 : Real.exp 1 ^ (4:ℕ) < (2.7182818286 : ℝ) ^ (4:ℕ) :=
      pow_lt_pow_left Real.exp_one_lt_d9 (Real.exp_pos 1).le (by norm_num)
    rw [h2]
    calc Real.exp 1 ^ (4:ℕ) < (2.7182818286 : ℝ) ^ (4:ℕ) := h1
      _ < 100 := by norm_num
  · rw [Real.log_lt_iff_lt_exp (by norm_num : (0:ℝ) < 100)]
    have h2 : Real.exp 5 = Real.exp 1 ^ (5:ℕ) := by
      rw [← Real.exp_nat_mul]
      norm_num
    have h1 : (2.7182818283 : ℝ) ^ (5:ℕ) ≤ Real.exp 1 ^ (5:ℕ) :=
      pow_le_pow_left (by norm_num) Real.exp_one_gt_d9.le 5
    rw [h2]
    calc (100:ℝ) < (2.7182818283 : ℝ) ^ (5:ℕ) := by norm_num
      _ ≤ _ := h1

theorem sqrt_hundredth : Real.sqrt (1/100) = 1/10 := by
  rw [show (1/100:ℝ) = (1/10) ^ 2 by norm_num, Real.sqrt_sq (by norm_num : (0:ℝ) ≤ 1/10)]

theorem bs_put_price_pos_branch (M : MathLib α) (inp : BsInputs α) (sigma : α)
    (ht : ¬ inp.t ≤ 0) (hσ : ¬ sigma ≤ 0) :
    bs_put_price M inp sigma
      = inp.k * M.exp (-inp.r * inp.t)
          * norm_cdf M (-((M.log (inp.s / inp.k)
              + (inp.r - inp.q + (1/2) * sigma * sigma) * inp.t) / (sigma * M.sqrt inp.t)
            - sigma * M.sqrt inp.t))
        - inp.s * M.exp (-inp.q * inp.t)
          * norm_cdf M (-((M.log (inp.s / inp.k)
              + (inp.r - inp.q + (1/2) * sigma * sigma) * inp.t) / (sigma * M.sqrt inp.t))) := by
  simp only [bs_put_price]
  rw [if_neg ht, if_neg hσ]

theorem Mreal_exp_eq : Mreal.exp = Real.exp := rfl

theorem Mreal_log_eq : Mreal.log = Real.log := rfl

theorem Mreal_sqrt_eq : Mreal.sqrt = Real.sqrt := rfl

theorem put_price_lt_pv_k (inp : BsInputs ℝ) (sigma : ℝ)
    (hs : 0 < inp.s) (hk : 0 < inp.k) (ht : 0 < inp.t) (hσ : 0 < sigma) :
    bs_put_price Mreal inp sigma < inp.k * Real.exp (-inp.r * inp.t) := by
  rw [bs_put_price_pos_branch Mreal inp sigma (not_le.mpr ht) (not_le.mpr hσ)]
  simp only [Mreal_exp_eq, Mreal_log_eq, Mreal_sqrt_eq]
  have hpvk : (0:ℝ) < inp.k * Real.exp (-inp.r * inp.t) :=
    mul_pos hk (Real.exp_pos _)
  have hpvs : (0:ℝ) < inp.s * Real.exp (-inp.q * inp.t) :=
    mul_pos hs (Real.exp_pos _)
  have h1 : inp.k * Real.exp (-inp.r * inp.t)
      * norm_cdf Mreal (-((Real.log (inp.s / inp.k)
          + (inp.r - inp.q + (1/2) * sigma * sigma) * inp.t) / (sigma * Real.sqrt inp.t)
        - sigma * Real.sqrt inp.t))
      ≤ inp.k * Real.exp (-inp.r * inp.t) := by
    have := norm_cdf_le_one_real (-((Real.log (inp.s / inp.k)
        + (inp.r - inp.q + (1/2) * sigma * sigma) * inp.t) / (sigma * Real.sqrt inp.t)
      - sigma * Real.sqrt inp.t))
    nlinarith
  have h2 : 0 < inp.s * Real.exp (-inp.q * inp.t)
      * norm_cdf Mreal (-((Real.log (inp.s / inp.k)
          + (inp.r - inp.q + (1/2) * sigma * sigma) * inp.t) / (sigma * Real.sqrt inp.t))) :=
    mul_pos hpvs (norm_cdf_pos_real _)
  linarith

theorem ivp_at_upper_none (inp : BsInputs ℝ) (hs : 0 < inp.s) (hk : 0 < inp.k)
    (ht : 0 < inp.t) :
    implied_vol_put_bisect Mreal inp (inp.k * Real.exp (-inp.r * inp.t))
      (1/1000000) 5 80 (1/1000000) = none := by
  have hpvk : (0:ℝ) < inp.k * Real.exp (-inp.r * inp.t) := mul_pos hk (Real.exp_pos _)
  have hpvs : (0:ℝ) ≤ inp.s * Real.exp (-inp.q * inp.t) :=
    (mul_pos hs (Real.exp_pos _)).le
  have hlow : bs_put_price Mreal inp (1/1000000) - inp.k * Real.exp (-inp.r * inp.t) < 0 := by
    have := put_price_lt_pv_k inp (1/1000000) hs hk ht (by norm_num)
    linarith
  have hhigh : bs_put_price Mreal inp 5 - inp.k * Real.exp (-inp.r * inp.t) < 0 := by
    have := put_price_lt_pv_k inp 5 hs hk ht (by norm_num)
    linarith
  have hg1 : ¬ (inp.k * Real.exp (-inp.r * inp.t) ≤ 0
      ∨ inp.s ≤ 0 ∨ inp.k ≤ 0 ∨ inp.t ≤ 0) := by
    push_neg
    exact ⟨hpvk, hs, hk, ht⟩
  have hband : max (inp.k * Real.exp (-inp.r * inp.t) - inp.s * Real.exp (-inp.q * inp.t)) 0
        - 1/1000000000 ≤ inp.k * Real.exp (-inp.r * inp.t)
      ∧ inp.k * Real.exp (-inp.r * inp.t)
        ≤ inp.k * Real.exp (-inp.r * inp.t) + 1/1000000000 := by
    constructor
    · have hle : max (inp.k * Real.exp (-inp.r * inp.t) - inp.s * Real.exp (-inp.q * inp.t)) 0
          ≤ inp.k * Real.exp (-inp.r * inp.t) :=
        max_le (by linarith) hpvk.le
      have hsub := sub_le_self
        (max (inp.k * Real.exp (-inp.r * inp.t) - inp.s * Real.exp (-inp.q * inp.t)) 0)
        (by norm_num : (0:ℝ) ≤ 1/1000000000)
      linarith
    · norm_num
  simp only [implied_vol_put_bisect, Mreal_exp_eq]
  rw [if_neg hg1, if_neg (not_not_intro hband), if_neg (ne_of_lt hlow),
    if_neg (ne_of_lt hhigh), if_pos (mul_pos_of_neg_of_neg hlow hhigh)]

/-- C9 (counterexample): with exact real arithmetic, at `s = k = 1`, `t = 1`,
`r = q = 0`, a target price exactly equal to the no-arbitrage upper bound
`K·e^(-rT) = 1` makes `implied_vol_put_bisect` return the no-solution
sentinel, not a volatility near the upper search endpoint: the put price is
strictly below `K·e^(-rT)` for every positive volatility, so the root is
never bracketed. -/
theorem iv_put_upper_bound_cex :
    implied_vol_put_bisect Mreal ⟨1, 1, 1, 0, 0⟩ ((1:ℝ) * Real.exp (-0 * 1))
      (1/1000000) 5 80 (1/1000000) = none :=
  ivp_at_upper_none ⟨1, 1, 1, 0, 0⟩ one_pos one_pos one_pos

/-- C9 (amended): for every `BsInputs` with `s > 0`, `k > 0`, `t > 0`, when
the target price equals exactly the no-arbitrage upper bound `K·e^(-rT)`,
`implied_vol_put_bisect` returns the no-solution sentinel: in exact real
arithmetic the put price is strictly below the bound on the whole search
interval, so the sign check `f_lo * f_hi > 0` fires (the near-endpoint
recovery described by the spec arises only from floating-point saturation of
the normal CDF, and the exact-lower-bound case is analogous). -/
theorem iv_put_at_upper_returns_sentinel (inp : BsInputs ℝ)
    (hs : 0 < inp.s) (hk : 0 < inp.k) (ht : 0 < inp.t) :
    implied_vol_put_bisect Mreal inp (inp.k * Real.exp (-inp.r * inp.t))
      (1/1000000) 5 80 (1/1000000) = none :=
  ivp_at_upper_none inp hs hk ht

theorem iv_put_at_upper_returns_sentinel_witness :
    implied_vol_put_bisect Mreal ⟨2, 3, 1, 0, 0⟩ ((3:ℝ) * Real.exp (-0 * 1))
      (1/1000000) 5 80 (1/1000000) = none :=
  iv_put_at_upper_returns_sentinel ⟨2, 3, 1, 0, 0⟩ (by norm_num) (by norm_num) (by norm_num)

theorem flat_core_bound (sigma L : ℝ) (hσ0 : 0 < sigma) (h2 : sigma ≤ 5) (hL4 : 4 < L) :
    (31/4 : ℝ) ≤ -((-L + (0 - 0 + (1/2) * sigma * sigma) * (1/100)) / (sigma * (1/10))) := by
  have hden : (0:ℝ) < sigma * (1/10) := by positivity
  rw [← neg_div, le_div_iff hden]
  nlinarith [hL4, mul_nonneg (sub_nonneg.mpr h2)
    (add_nonneg (by norm_num : (0:ℝ) ≤ 4/5) (div_nonneg hσ0.le (by norm_num : (0:ℝ) ≤ 200)))]

theorem price_flat_band (sigma : ℝ) (h1 : 1/1000000 ≤ sigma) (h2 : sigma ≤ 5) :
    |bs_put_price Mreal inp_flat sigma - 99| ≤ 100 * Real.exp (-29) := by
  have hσ0 : (0:ℝ) < sigma := lt_of_lt_of_le (by norm_num) h1
  have ht : ¬ (inp_flat.t ≤ 0) := by norm_num [inp_flat]
  rw [bs_put_price_pos_branch Mreal inp_flat sigma ht (not_le.mpr hσ0)]
  simp only [Mreal_exp_eq, Mreal_log_eq, Mreal_sqrt_eq, inp_flat]
  have hlogrw : Real.log ((1:ℝ)/100) = -Real.log 100 := by
    rw [one_div, Real.log_inv]
  obtain ⟨hL4, hL5⟩ := log_hundred_bounds
  have hz1 : (31/4 : ℝ) ≤ -((Real.log ((1:ℝ)/100)
      + (0 - 0 + (1/2) * sigma * sigma) * (1/100)) / (sigma * Real.sqrt (1/100))) := by
    rw [hlogrw, sqrt_hundredth]
    exact flat_core_bound sigma (Real.log 100) hσ0 h2 hL4
  have hz2 : (31/4 : ℝ) ≤ -((Real.log ((1:ℝ)/100)
      + (0 - 0 + (1/2) * sigma * sigma) * (1/100)) / (sigma * Real.sqrt (1/100))
        - sigma * Real.sqrt (1/100)) := by
    rw [hlogrw, sqrt_hundredth]
    have hkey := flat_core_bound sigma (Real.log 100) hσ0 h2 hL4
    have hσ10 : (0:ℝ) ≤ sigma * (1/10) := by positivity
    linarith
  have hN1le := norm_cdf_le_one_real (-((Real.log ((1:ℝ)/100)
      + (0 - 0 + (1/2) * sigma * sigma) * (1/100)) / (sigma * Real.sqrt (1/100))))
  have hN1ge := norm_cdf_ge_real _ hz1
  have hN2le := norm_cdf_le_one_real (-((Real.log ((1:ℝ)/100)
      + (0 - 0 + (1/2) * sigma * sigma) * (1/100)) / (sigma * Real.sqrt (1/100))
        - sigma * Real.sqrt (1/100)))
  have hN2ge := norm_cdf_ge_real _ hz2
  have hexp0 : Real.exp (-0 * ((1:ℝ)/100)) = 1 := by
    norm_num
  rw [hexp0]
  have hepos : (0:ℝ) < Real.exp (-29) := Real.exp_pos _
  rw [abs_le]
  constructor
  · nlinarith
  · nlinarith

theorem put_bisect_loop_step (M : MathLib ℝ) (inp : BsInputs ℝ) (target tol : ℝ)
    (n : ℕ) (a b fa : ℝ) :
    put_bisect_loop M inp target tol (n+1) a b fa
      = if |bs_put_price M inp ((1/2) * (a + b)) - target| < tol ∨ b - a < 1/1000000
          then (1/2) * (a + b)
        else if fa * (bs_put_price M inp ((1/2) * (a + b)) - target) ≤ 0
          then put_bisect_loop M inp target tol n a ((1/2) * (a + b)) fa
        else put_bisect_loop M inp target tol n ((1/2) * (a + b)) b
          (bs_put_price M inp ((1/2) * (a + b)) - target) := rfl

theorem flat_round_trip_core (sigma : ℝ) (h1 : 1/1000000 < sigma) (h2 : sigma < 5)
    (h3 : 1/10000 < |sigma - 1/1000000|) (h4 : 1/10000 < |sigma - 5|)
    (h5 : 1/10000 < |sigma - (1/2) * (1/1000000 + 5)|) :
    Option.elim
      (implied_vol_put_bisect Mreal inp_flat (bs_put_price Mreal inp_flat sigma)
        (1/1000000) 5 80 (1/1000000))
      True (fun v => 1/10000 < |v - sigma|) := by
  have hband0 := price_flat_band sigma h1.le h2.le
  have hesmall := exp_neg_29_small
  have hepos : (0:ℝ) < Real.exp (-29) := Real.exp_pos _
  set tgt := bs_put_price Mreal inp_flat sigma with htgt
  have habs := abs_le.mp hband0
  have hg1 : ¬ (tgt ≤ 0 ∨ inp_flat.s ≤ 0 ∨ inp_flat.k ≤ 0 ∨ inp_flat.t ≤ 0) := by
    push_neg
    refine ⟨by linarith, by norm_num [inp_flat], by norm_num [inp_flat], by norm_num [inp_flat]⟩
  have hupper : inp_flat.k * Real.exp (-inp_flat.r * inp_flat.t) = 100 := by
    norm_num [inp_flat]
  have hlower1 : inp_flat.s * Real.exp (-inp_flat.q * inp_flat.t) = 1 := by
    norm_num [inp_flat]
  have hband : max (inp_flat.k * Real.exp (-inp_flat.r * inp_flat.t)
        - inp_flat.s * Real.exp (-inp_flat.q * inp_flat.t)) 0 - 1/1000000000 ≤ tgt
      ∧ tgt ≤ inp_flat.k * Real.exp (-inp_flat.r * inp_flat.t) + 1/1000000000 := by
    rw [hupper, hlower1]
    have hmax : max ((100:ℝ) - 1) 0 = 99 := by norm_num
    rw [hmax]
    constructor <;> linarith
  have hm := price_flat_band ((1/2) * (1/1000000 + 5)) (by norm_num) (by norm_num)
  have hfm : |bs_put_price Mreal inp_flat ((1/2) * (1/1000000 + 5)) - tgt| < 1/1000000 := by
    have htri := abs_sub_le (bs_put_price Mreal inp_flat ((1/2) * (1/1000000 + 5))) 99 tgt
    rw [abs_sub_comm (99:ℝ) tgt] at htri
    have habs2 := abs_le.mp hm
    have habs3 := abs_le.mp hband0
    have h99 : |bs_put_price Mreal inp_flat ((1/2) * (1/1000000 + 5)) - 99|
        ≤ 100 * Real.exp (-29) := hm
    calc |bs_put_price Mreal inp_flat ((1/2) * (1/1000000 + 5)) - tgt|
        ≤ |bs_put_price Mreal inp_flat ((1/2) * (1/1000000 + 5)) - 99| + |tgt - 99| := htri
      _ ≤ 100 * Real.exp (-29) + 100 * Real.exp (-29) := by
          exact add_le_add h99 hband0
      _ < 1/1000000 := by linarith
  simp only [implied_vol_put_bisect, Mreal_exp_eq]
  rw [if_neg hg1, if_neg (not_not_intro hband)]
  split_ifs with e1 e2 e3
  · simp only [Option.elim]
    rw [abs_sub_comm]
    exact h3
  · simp only [Option.elim]
    rw [abs_sub_comm]
    exact h4
  · trivial
  · have hloop : put_bisect_loop Mreal inp_flat tgt (1/1000000) 80 (1/1000000) 5
        (bs_put_price Mreal inp_flat (1/1000000) - tgt) = (1/2) * (1/1000000 + 5) := by
      rw [show (80:ℕ) = 79 + 1 from rfl, put_bisect_loop_step]
      rw [if_pos (Or.inl hfm)]
    rw [hloop]
    simp only [Option.elim]
    rw [abs_sub_comm]
    exact h5

/-- C1 (counterexample): the round-trip property fails at the deep
in-the-money, short-expiry input `inp_flat` (`s = 1`, `k = 100`, `t = 0.01`,
`r = q = 0`) with `σ* = 1/2 ∈ (1e-6, 5)`: the solver either returns the
sentinel or a volatility farther than `1e-4` from `σ*` (in fact the
`|f(midpoint)| < 1e-6` early exit fires at the first midpoint `2.5000005`,
because the put price is within `1e-10` of 99 across the whole interval). -/
theorem round_trip_cex :
    Option.elim
      (implied_vol_put_bisect Mreal inp_flat (bs_put_price Mreal inp_flat (1/2))
        (1/1000000) 5 80 (1/1000000))
      True (fun v => 1/10000 < |v - 1/2|) :=
  flat_round_trip_core (1/2) (by norm_num) (by norm_num)
    (lt_abs.mpr (Or.inl (by norm_num))) (lt_abs.mpr (Or.inr (by norm_num)))
    (lt_abs.mpr (Or.inr (by norm_num)))

/-- C1 (amended): round-trip recovery of volatility does not hold for every
valid input: for the deep in-the-money, short-expiry input `inp_flat`
(`s = 1`, `k = 100`, `t = 0.01`, `r = q = 0`), whose put price is flat in
volatility at the `1e-6` tolerance, pricing at any `σ* ∈ (1e-6, 5)` farther
than `1e-4` from the interval endpoints and from the first midpoint
`2.5000005` and then solving yields either the no-solution sentinel or a
volatility whose distance from `σ*` exceeds `1e-4`.  (Round-trip recovery is
a property of well-conditioned inputs only, not of all `BsInputs` with
`s, k, t > 0`.) -/
theorem round_trip_flat_vega_failure (sigma : ℝ) (h1 : 1/1000000 < sigma) (h2 : sigma < 5)
    (h3 : 1/10000 < |sigma - 1/1000000|) (h4 : 1/10000 < |sigma - 5|)
    (h5 : 1/10000 < |sigma - (1/2) * (1/1000000 + 5)|) :
    Option.elim
      (implied_vol_put_bisect Mreal inp_flat (bs_put_price Mreal inp_flat sigma)
        (1/1000000) 5 80 (1/1000000))
      True (fun v => 1/10000 < |v - sigma|) :=
  flat_round_trip_core sigma h1 h2 h3 h4 h5

theorem round_trip_flat_vega_failure_witness :
    Option.elim
      (implied_vol_put_bisect Mreal inp_flat (bs_put_price Mreal inp_flat 1)
        (1/1000000) 5 80 (1/1000000))
      True (fun v => 1/10000 < |v - 1|) :=
  round_trip_flat_vega_failure 1 (by norm_num) (by norm_num)
    (lt_abs.mpr (Or.inl (by norm_num))) (lt_abs.mpr (Or.inr (by norm_num)))
    (lt_abs.mpr (Or.inr (by norm_num)))

/-- C10 (counterexample): `covered_call` in explicit-strike mode returns an
incomplete record.  With spot 100, strike 105, 30 days, zero rate/yield, 100
shares and a fetched call premium of 200 (outside the call no-arbitrage band,
so the implied-volatility solve returns the sentinel), the engine returns a
populated record whose `iv` and `delta` fields are absent — not an error. -/
theorem covered_call_incomplete_record_cex :
    (covered_call_with_strike Mreal 100 105 30 0 0 (1/5) 100
        ⟨none, none, none, some 200⟩).toOption.map
      (fun rec => (rec.iv, rec.delta, rec.premium_mid, rec.strike, rec.breakeven))
      = some (none, none, 200, 105, -100) := by
  have hiv : implied_vol_call_bisect Mreal ⟨100, 105, ((30:ℤ):ℝ)/365, 0, 0⟩ 200
      (1/1000000) 5 80 (1/1000000) = none := by
    have hg2 : ¬ (max ((100:ℝ) * Mreal.exp (-0 * (((30:ℤ):ℝ)/365))
          - 105 * Mreal.exp (-0 * (((30:ℤ):ℝ)/365))) 0 - 1/1000000000 ≤ 200
        ∧ (200:ℝ) ≤ 100 * Mreal.exp (-0 * (((30:ℤ):ℝ)/365)) + 1/1000000000) := by
      rw [Mreal_exp_eq]
      intro h
      have h2 := h.2
      rw [show Real.exp (-0 * (((30:ℤ):ℝ)/365)) = 1 by norm_num] at h2
      norm_num at h2
    simp only [implied_vol_call_bisect]
    rw [if_neg (by norm_num), if_pos hg2]
  simp only [covered_call_with_strike]
  rw [if_neg (by norm_num : ¬ (100:ℤ) ≤ 0), if_neg (by decide : ¬ ((100:ℤ) % 100 ≠ 0))]
  simp only [hiv]
  norm_num [Except.toOption]
